import Mathlib

/-!
A shallow embedding of the `minus` terminal pager library (the wrap buffer,
viewport clamp, prompt/message handling, line-number annotation and the draw
routine) together with proofs and refutations of its specification claims.

Text is modelled as `List Char`.  The external `textwrap::wrap` dependency
(called by `wrap_str` and `rewrap` in `src/lib.rs`) is modelled from its
documented behaviour: greedy word wrapping that preserves the inter-word
whitespace of words kept on one line, strips whitespace at line breaks,
and pre-breaks words wider than the wrap width into width-sized chunks.
Rust panics are modelled as `Except.error`; `usize` values are `Nat`
(Rust's `saturating_sub` coincides with truncated `Nat` subtraction).
-/

/-- Rust `String` / `&str` contents, as a list of characters. -/
abbrev Str := List Char

/-- Coerce a Lean string literal into the model's character-list form. -/
def str (s : String) : Str := s.data

/-- `n` space characters. -/
def spacesN (n : Nat) : Str := List.replicate n ' '

/-- Tokenizer state machine underlying the `textwrap` model: walks the text
accumulating the current word (reversed) and the count of spaces seen after
it, emitting `(word, following-space-count)` pairs.  A text with leading
spaces yields a leading `(empty word, gap)` pair. -/
def tokposAux : Str → Str → Nat → List (Str × Nat)
  | [], w, g => [(w.reverse, g)]
  | c :: rest, w, g =>
    if c = ' ' then tokposAux rest w (g + 1)
    else if g = 0 then tokposAux rest (c :: w) 0
    else (w.reverse, g) :: tokposAux rest [c] 0

/-- Split a text into `(word, following-space-count)` tokens. -/
def tokenize (s : Str) : List (Str × Nat) := tokposAux s [] 0

/-- Re-render a token list back into text (words followed by their gaps). -/
def renderTokens (ts : List (Str × Nat)) : Str :=
  ts.flatMap (fun p => p.1 ++ spacesN p.2)

/-- Chunks of size `n + 1` of a character list. -/
def chunksOf (n : Nat) : Str → List Str
  | [] => []
  | c :: rest => (c :: rest.take n) :: chunksOf n (rest.drop n)
  termination_by l => l.length
  decreasing_by
    simp only [List.length_drop, List.length_cons]
    omega

/-- Distribute a word's chunks as tokens: interior chunks glue with no gap,
the last chunk keeps the original gap. -/
def attachGaps (g : Nat) : List Str → List (Str × Nat)
  | [] => []
  | [p] => [(p, g)]
  | p :: q :: ps => (p, 0) :: attachGaps g (q :: ps)

/-- `textwrap` model: a word wider than the wrap width is pre-broken into
width-sized pieces (width at least 1 so the break makes progress). -/
def breakTok (cols : Nat) (p : Str × Nat) : List (Str × Nat) :=
  if p.1.length ≤ max cols 1 then [p]
  else attachGaps p.2 (chunksOf (max cols 1 - 1) p.1)

/-- Pre-break every over-wide word of a token list. -/
def breakTokens (cols : Nat) (ts : List (Str × Nat)) : List (Str × Nat) :=
  ts.flatMap (breakTok cols)

/-- `textwrap` model: greedy first-fit line filling.  `cur` is the line being
built (`none` before the first word), `pg` the whitespace gap pending between
`cur` and the next word; a line break drops the pending gap (trailing
whitespace never reaches an emitted row). -/
def fillLines (cols : Nat) : List (Str × Nat) → Option Str → Nat → List Str
  | [], none, _ => []
  | [], some cur, _ => [cur]
  | (w, g) :: ts, none, _ => fillLines cols ts (some w) g
  | (w, g) :: ts, some cur, pg =>
    let cand := cur ++ spacesN pg ++ w
    if cand.length ≤ cols then fillLines cols ts (some cand) g
    else cur :: fillLines cols ts (some w) g

/-- `wrap_str` (src/lib.rs:531): wrap one logical line into display rows at
width `cols` via `textwrap::wrap`, modelled as tokenize / break long words /
greedy fill. -/
def wrap_str (line : Str) (cols : Nat) : List Str :=
  fillLines cols (breakTokens cols (tokenize line)) none 0

/-- Join rows with a single space, as Rust's `line.join(" ")`. -/
def joinSpace (rows : List Str) : Str := (rows.intersperse (str " ")).flatten

/-- `rewrap` (src/lib.rs:523): re-wrap a wrapped line by joining its rows
with a single space and re-splitting at the (new) width. -/
def rewrap (line : List Str) (cols : Nat) : List Str :=
  wrap_str (joinSpace line) cols

/-- `rewrap_lines` (src/lib.rs:516): rewrap every stored wrapped line. -/
def rewrap_lines (lines : List (List Str)) (cols : Nat) : List (List Str) :=
  lines.map (fun l => rewrap l cols)

/-- Worker for Rust's `str::lines()`: emit a fragment at each `'\n'`
(stripping one `'\r'` immediately before it), and emit the final fragment
only if it is nonempty. -/
def rustLinesAux : Str → Str → List Str
  | [], acc => if acc.isEmpty then [] else [acc.reverse]
  | c :: rest, acc =>
    if c = '\n' then
      (match acc with
        | '\r' :: acc' => acc'.reverse
        | _ => acc.reverse) :: rustLinesAux rest []
    else rustLinesAux rest (c :: acc)

/-- Rust's `str::lines()` iterator, collected. -/
def rustLines (s : Str) : List Str := rustLinesAux s []

/-- `LineNumbers` (src/utils/mod.rs:144). -/
inductive LineNumbers where
  | AlwaysOn
  | Enabled
  | Disabled
  | AlwaysOff
  deriving DecidableEq

/-- `ExitStrategy` (src/lib.rs:498). -/
inductive ExitStrategy where
  | ProcessQuit
  | PagerQuit
  deriving DecidableEq

/-- The `Pager` struct (src/lib.rs:158).  The function-valued fields
(`input_classifier`, `exit_callbacks`) and the search-feature fields are
not part of any claim and are omitted; `message` keeps Rust's tuple order:
first the optional wrapped message, then the changed-since-last-display
flag. -/
structure Pager where
  wrap_lines : List (List Str)
  line_numbers : LineNumbers
  prompt : List Str
  lines : Str
  exit_strategy : ExitStrategy
  end_stream : Bool
  message : Option (List Str) × Bool
  upper_mark : Nat
  run_no_overflow : Bool
  rows : Nat
  cols : Nat
  deriving DecidableEq

/-- `Pager::new` (src/lib.rs:214) for given terminal dimensions (the
terminal-size query is external; tests fix 10 rows and 80 columns). -/
def Pager.new (rows cols : Nat) : Pager where
  wrap_lines := []
  line_numbers := .Disabled
  upper_mark := 0
  prompt := wrap_str (str "minus") cols
  exit_strategy := .ProcessQuit
  run_no_overflow := false
  message := (none, false)
  lines := []
  end_stream := false
  cols := cols
  rows := rows

/-- `Pager::set_text` (src/lib.rs:266): replace the wrapped lines with the
given text split on line separators and wrapped at `cols`.  (Note: the
pending `lines` field is not touched.) -/
def set_text (p : Pager) (text : Str) : Pager :=
  { p with wrap_lines := (rustLines text).map (fun l => wrap_str l p.cols) }

/-- `Pager::send_message` (src/lib.rs:299).  The `panic!` on embedded
newlines is modelled as `Except.error` carrying the panic message; the
panic fires before any field is written, so no mutated state escapes. -/
def send_message (p : Pager) (text : Str) : Except Str Pager :=
  if text.contains '\n' then .error (str "Prompt text cannot contain newlines")
  else .ok { p with message := (some (wrap_str text p.cols), true) }

/-- `Pager::set_prompt` (src/lib.rs:322), panic modelled as for
`send_message`. -/
def set_prompt (p : Pager) (t : Str) : Except Str Pager :=
  if t.contains '\n' then .error (str "Prompt text cannot contain newlines")
  else .ok { p with prompt := wrap_str t p.cols }

/-- Rust `string.ends_with('\n')`. -/
def endsWithNl (s : Str) : Bool := s.getLast? = some '\n'

/-- `Pager::push_str` (src/lib.rs:398): if the string ends with `'\n'`,
the pending text plus the string is split, wrapped and flushed; else if it
contains `'\n'`, all fragments but the last are wrapped and appended and
the last fragment is pushed onto the pending text; else the whole string
is pushed onto the pending text. -/
def push_str (p : Pager) (string : Str) : Pager :=
  if endsWithNl string then
    { p with
      wrap_lines :=
        p.wrap_lines ++ (rustLines (p.lines ++ string)).map (fun l => wrap_str l p.cols)
      lines := [] }
  else if string.contains '\n' then
    let ls := rustLines string
    { p with
      wrap_lines := p.wrap_lines ++ ls.dropLast.map (fun l => wrap_str l p.cols)
      lines := p.lines ++ ls.getLastD [] }
  else
    { p with lines := p.lines ++ string }

/-- `Pager::get_flattened_lines` (src/lib.rs:450): all wrapped rows in
order. -/
def get_flattened_lines (p : Pager) : List Str := p.wrap_lines.flatten

/-- `Pager::num_lines` (src/lib.rs:455): the number of wrapped rows held. -/
def num_lines (p : Pager) : Nat := (get_flattened_lines p).length

/-- `Pager::readjust_wraps` (src/lib.rs:441): rewrap the stored lines, the
message (when present) and the prompt at the current width. -/
def readjust_wraps (p : Pager) : Pager :=
  { p with
    wrap_lines := rewrap_lines p.wrap_lines p.cols
    message := (p.message.1.map (fun m => rewrap m p.cols), p.message.2)
    prompt := rewrap p.prompt p.cols }

/-- Decimal digits of a `Nat`, as characters. -/
def natStr (n : Nat) : Str := (Nat.repr n).data

/-- `len_line_number` (src/utils/mod.rs:115):
`(line_count as f64).log10().floor() as usize + 1`, i.e. the number of
decimal digits of the row count (for `line_count = 0` the negative-infinity
float cast saturates to 0, giving 1, which is also the length of `"0"`;
the two agree exactly below `2^52`, as the source comment notes). -/
def lenLineNumber (lineCount : Nat) : Nat := (natStr lineCount).length

/-- The test-mode number prefix of src/utils/mod.rs:215:
`" {number: >len$}. "` — a space, the number right-aligned in a field of
width `len`, a dot and a single space.  (The non-test variant only adds
invisible bold/reset style codes around the same text.) -/
def fmtNumbers (number len : Nat) : Str :=
  ' ' :: (spacesN (len - (natStr number).length) ++ natStr number) ++ ['.', ' ']

/-- Worker for `annotate_line_numbers`, carrying the 0-based index of the
current logical line: rewrap the line at `cols - (len + 3)`, prefix every
one of its rows with the formatted number, and continue. -/
def annotAux (len cols : Nat) : List (List Str) → Nat → List Str
  | [], _ => []
  | line :: rest, idx =>
    (rewrap line (cols - (len + 3))).map (fun row => fmtNumbers (idx + 1) len ++ row)
      ++ annotAux len cols rest (idx + 1)

/-- `annotate_line_numbers` (src/utils/mod.rs:182): for each logical line,
rewrap it at `cols` minus the numbering padding `len + 3` and insert the
formatted line number at the start of each of its rows, then flatten. -/
def annotate_line_numbers (lines : List (List Str)) (len cols : Nat) : List Str :=
  annotAux len cols lines 0

/-- `write_lines` (src/utils/mod.rs:67): clamp `upper_mark` against the row
count and the terminal height, then produce the displayed rows — the
flattened rows (or their line-numbered annotation) with `upper_mark` rows
skipped and at most `min (rows - 1) line_count` rows taken.  Returns the
updated pager together with the rows written. -/
def write_lines (p : Pager) : Pager × List Str :=
  let lineCount := num_lines p
  let rows := p.rows - 1
  let lowerMark := p.upper_mark + min rows lineCount
  let upper :=
    if lowerMark > lineCount then
      if lineCount < p.rows then 0 else lineCount - rows
    else p.upper_mark
  let displayed :=
    match p.line_numbers with
    | .AlwaysOff | .Disabled =>
      ((get_flattened_lines p).drop upper).take (min rows lineCount)
    | .AlwaysOn | .Enabled =>
      ((annotate_line_numbers p.wrap_lines (lenLineNumber lineCount) p.cols).drop
        upper).take (min rows lineCount)
  ({ p with upper_mark := upper }, displayed)

/-- What one `draw` call wrote: whether the screen was cleared, the body
rows from `write_lines`, and the reserved prompt row — `none` when the
one-shot no-overflow path returned early without writing it, and
`some none` when `prompt.first().unwrap()` would panic on an empty
vector. -/
structure DrawOutput where
  cleared : Bool
  body : List Str
  promptRow : Option (Option Str)
  deriving DecidableEq

/-- `draw` (src/utils/mod.rs:29): when no-overflow mode is on and all rows
fit within the terminal height, just run `write_lines` and return;
otherwise clear the screen, run `write_lines`, and write the reserved last
row — the first row of the message if one is present, else of the
prompt. -/
def draw (p : Pager) : Pager × DrawOutput :=
  if p.run_no_overflow ∧ num_lines p ≤ p.rows then
    let res := write_lines p
    (res.1, ⟨false, res.2, none⟩)
  else
    let res := write_lines p
    let promptVec := p.message.1.getD p.prompt
    (res.1, ⟨true, res.2, some promptVec.head?⟩)

/-- The tail rendering of a single-space-separated token chain: each word
preceded by one space. -/
def renderTail (ts : List (Str × Nat)) : Str := ts.flatMap (fun p => ' ' :: p.1)

/-- A token chain describing nonempty words separated by single spaces with
no leading or trailing whitespace: every word is nonempty, every gap is one
space except the last, which is zero. -/
def chainOK : List (Str × Nat) → Bool
  | [] => true
  | (w, g) :: rest => (!w.isEmpty) && (g == if rest.isEmpty then 0 else 1) && chainOK rest

/-- Every word fits within `cols` columns. -/
def wordsFit (cols : Nat) (ts : List (Str × Nat)) : Bool :=
  ts.all (fun p => p.1.length ≤ cols)

/-- State after feeding the not-separator-terminated `"abc"` and then
`"def\nghi"` through `push_str`. -/
def pagerOfC1 : Pager :=
  push_str (push_str (Pager.new 10 80) (str "abc")) (str "def\nghi")

/-- State after feeding pending text `"abc"` and then replacing the content
with `"xyz"` via `set_text`. -/
def pagerOfC8 : Pager :=
  set_text (push_str (Pager.new 10 80) (str "abc")) (str "xyz")

/-- A state holding a message whose changed-since-last-display flag is
`false`. -/
def pagerOfC4 : Pager :=
  { Pager.new 10 80 with wrap_lines := [[str "A"]], message := (some [str "msg"], false) }

/-- A state with one logical line stored as ten wrapped rows and line
numbers enabled. -/
def pagerOfC5 : Pager :=
  { Pager.new 12 50 with wrap_lines := [List.replicate 10 ['x']], line_numbers := .Enabled }

/-- A no-overflow state whose row count equals the full terminal height. -/
def pagerOfC6 : Pager :=
  { Pager.new 2 80 with wrap_lines := [[str "a"], [str "b"]], run_no_overflow := true }

/-- A no-overflow state with line numbers enabled and one stored row. -/
def pagerOfC6b : Pager :=
  { Pager.new 10 80 with
    wrap_lines := [[str "a"]], run_no_overflow := true, line_numbers := .Enabled }

/-- A no-overflow state whose single row fits strictly within the visible
rows. -/
def pagerNoOv : Pager :=
  { Pager.new 10 80 with wrap_lines := [[str "a"]], run_no_overflow := true }

/-- A state whose prompt was set (at 3 columns) to the over-wide text
`"aa bb"`, which wraps to two rows. -/
def pagerOfC10 : Pager :=
  { Pager.new 10 3 with prompt := wrap_str (str "aa bb") 3 }

/-- A small state used to witness the viewport clamp at an out-of-range
`upper_mark`. -/
def pagerClampW : Pager :=
  { Pager.new 2 80 with wrap_lines := [[str "a"]], upper_mark := 5 }

lemma tokposAux_ne_nil (s : Str) : ∀ w g, tokposAux s w g ≠ [] := by
  induction s with
  | nil => intro w g; simp [tokposAux]
  | cons c rest ih =>
    intro w g
    simp only [tokposAux]
    split
    · exact ih _ _
    · split
      · exact ih _ _
      · simp

lemma tokenize_ne_nil (s : Str) : tokenize s ≠ [] := tokposAux_ne_nil s [] 0

lemma fillLines_some_ne_nil (cols : Nat) :
    ∀ ts (cur : Str) pg, fillLines cols ts (some cur) pg ≠ [] := by
  intro ts
  induction ts with
  | nil => intro cur pg; simp [fillLines]
  | cons t rest ih =>
    intro cur pg
    obtain ⟨w, g⟩ := t
    simp only [fillLines]
    split
    · exact ih _ _
    · simp

lemma attachGaps_ne_nil (g : Nat) (l : List Str) (h : l ≠ []) : attachGaps g l ≠ [] := by
  match l with
  | [] => exact absurd rfl h
  | [p] => simp [attachGaps]
  | p :: q :: ps => simp [attachGaps]

lemma chunksOf_ne_nil (n : Nat) (l : Str) (h : l ≠ []) : chunksOf n l ≠ [] := by
  match l with
  | [] => exact absurd rfl h
  | c :: rest => simp [chunksOf]

lemma breakTok_ne_nil (cols : Nat) (p : Str × Nat) : breakTok cols p ≠ [] := by
  unfold breakTok
  split
  · simp
  · rename_i h
    refine attachGaps_ne_nil _ _ (chunksOf_ne_nil _ _ ?_)
    intro hnil
    simp [hnil] at h

lemma wrap_str_ne_nil (s : Str) (cols : Nat) : wrap_str s cols ≠ [] := by
  obtain ⟨t, ts, ht⟩ := List.exists_cons_of_ne_nil (tokenize_ne_nil s)
  unfold wrap_str breakTokens
  rw [ht, List.flatMap_cons]
  obtain ⟨b, bs, hb⟩ := List.exists_cons_of_ne_nil (breakTok_ne_nil cols t)
  rw [hb]
  obtain ⟨w, g⟩ := b
  simpa only [List.cons_append, fillLines] using
    fillLines_some_ne_nil cols (bs ++ ts.flatMap (breakTok cols)) w g

/-- C1: evaluation of `push_str` at the failing input.  After feeding the
pending text `"abc"` and then `"def\nghi"`, the flattened wrap buffer is
`["def"]` and the pending partial line is `"abcghi"`: the claim instead
requires the pending text plus the pre-separator fragment to be flushed
(flatten `["abcdef"]`) and the last fragment alone to become the pending
line (`"ghi"`).  The middle branch of `push_str` (src/lib.rs:410) never
consults `self.lines` when flushing. -/
theorem minus_append_pending_lost :
    get_flattened_lines pagerOfC1 = [str "def"] ∧
    pagerOfC1.lines = str "abcghi" ∧
    ¬(get_flattened_lines pagerOfC1 = [str "abcdef"] ∧ pagerOfC1.lines = str "ghi") := by
  decide

/-- C8: evaluation of `set_text` at the failing input.  `set_text` never
clears the pending `lines` buffer (src/lib.rs:266 only assigns
`wrap_lines`), so after pending `"abc"` and `set_text("xyz")` the pending
line is still `"abc"`, and a subsequent `push_str("d\n")` flushes the
contaminated line `"abcd"` — unlike the same calls on a fresh pager. -/
theorem minus_set_text_pending_kept :
    pagerOfC8.lines = str "abc" ∧
    (set_text (Pager.new 10 80) (str "xyz")).lines = [] ∧
    (push_str pagerOfC8 (str "d\n")).wrap_lines = [[str "xyz"], [str "abcd"]] ∧
    (push_str pagerOfC8 (str "d\n")).wrap_lines ≠
      (push_str (set_text (Pager.new 10 80) (str "xyz")) (str "d\n")).wrap_lines := by
  decide

/-- C2: after the clamp performed by `write_lines`, with
`visible_rows = rows - 1` (saturating), the upper mark satisfies
`0 ≤ upper_mark ≤ max 0 (total_rows - visible_rows)` (truncated `Nat`
subtraction is exactly that `max`), and whenever all rows fit within the
visible rows the upper mark is reset to `0` — for every pager state,
including out-of-range initial upper marks. -/
theorem minus_viewport_clamp (p : Pager) :
    0 ≤ (write_lines p).1.upper_mark ∧
    (write_lines p).1.upper_mark ≤ num_lines p - (p.rows - 1) ∧
    (num_lines p ≤ p.rows - 1 → (write_lines p).1.upper_mark = 0) := by
  have h : (write_lines p).1.upper_mark =
      if p.upper_mark + min (p.rows - 1) (num_lines p) > num_lines p then
        if num_lines p < p.rows then 0 else num_lines p - (p.rows - 1)
      else p.upper_mark := rfl
  rw [h]
  refine ⟨Nat.zero_le _, ?_, fun hle => ?_⟩ <;> split_ifs <;> omega

/-- Witness for C2 at a concrete state: one stored row, two terminal rows,
out-of-range `upper_mark = 5`; the content fits, so the clamp resets the
upper mark to zero. -/
theorem minus_viewport_clamp_witness :
    num_lines pagerClampW ≤ pagerClampW.rows - 1 ∧
    (write_lines pagerClampW).1.upper_mark = 0 :=
  ⟨by decide, (minus_viewport_clamp pagerClampW).2.2 (by decide)⟩

/-- C3: for every pager state and text, `set_prompt` and `send_message`
reject text containing a line separator — the panic, modelled as
`Except.error`, fires on the guard before any field is written, so the
prior state (in particular the prior prompt or message) survives intact —
and for separator-free text they succeed, updating exactly the named
field (`prompt`, resp. `message` with its changed flag set). -/
theorem minus_prompt_message_reject (p : Pager) (t : Str) :
    (t.contains '\n' = true →
      set_prompt p t = .error (str "Prompt text cannot contain newlines") ∧
      send_message p t = .error (str "Prompt text cannot contain newlines")) ∧
    (t.contains '\n' = false →
      set_prompt p t = .ok { p with prompt := wrap_str t p.cols } ∧
      send_message p t = .ok { p with message := (some (wrap_str t p.cols), true) }) := by
  constructor
  · intro h
    have h' : '\n' ∈ t := by simpa using h
    constructor <;> simp [set_prompt, send_message, h']
  · intro h
    have h' : '\n' ∉ t := by simpa using h
    constructor <;> simp [set_prompt, send_message, h']

/-- Witness for C3: `"up\ndown"` is rejected by `set_prompt`, while
`send_message` with `"hi"` succeeds and sets the message field with its
changed flag. -/
theorem minus_prompt_message_reject_witness :
    set_prompt (Pager.new 10 80) (str "up\ndown") =
      .error (str "Prompt text cannot contain newlines") ∧
    send_message (Pager.new 10 80) (str "hi") =
      .ok { Pager.new 10 80 with message := (some (wrap_str (str "hi") 80), true) } :=
  ⟨((minus_prompt_message_reject (Pager.new 10 80) (str "up\ndown")).1 (by decide)).1,
   ((minus_prompt_message_reject (Pager.new 10 80) (str "hi")).2 (by decide)).2⟩

/-- C9: `wrap_str` always returns at least one row (even for the empty
string), `rewrap` likewise; hence for any state whose prompt and message
were produced by them — as `Pager::new`, `set_prompt`, `send_message` and
`readjust_wraps` do — the `prompt.first().unwrap()` in `draw`
(src/utils/mod.rs:51), modelled as the inner `Option`, never hits its
panic branch (`some none`). -/
theorem minus_prompt_row_safe :
    (∀ (s : Str) (cols : Nat), wrap_str s cols ≠ []) ∧
    (∀ (l : List Str) (cols : Nat), rewrap l cols ≠ []) ∧
    (∀ p : Pager, p.prompt ≠ [] → (∀ m, p.message.1 = some m → m ≠ []) →
      (draw p).2.promptRow ≠ some none) := by
  refine ⟨wrap_str_ne_nil, fun l cols => wrap_str_ne_nil _ _, fun p h1 h2 => ?_⟩
  by_cases hc : p.run_no_overflow ∧ num_lines p ≤ p.rows
  · simp [draw, hc]
  · simp only [draw, if_neg hc]
    rcases hm : p.message.1 with _ | m
    · simp only [hm, Option.getD_none]
      rcases hp : p.prompt with _ | ⟨a, l⟩
      · exact absurd hp h1
      · simp
    · simp only [hm, Option.getD_some]
      rcases hme : m with _ | ⟨a, l⟩
      · exact absurd (h2 [] (hme ▸ hm)) (by simp)
      · simp

/-- Witness for C9 at the freshly constructed pager (prompt
`wrap_str "minus" 80 = ["minus"]`, no message): the reserved-row access
cannot panic. -/
theorem minus_prompt_row_safe_witness :
    (draw (Pager.new 10 80)).2.promptRow ≠ some none :=
  minus_prompt_row_safe.2.2 (Pager.new 10 80) (by decide) (fun m h => nomatch h)

lemma write_lines_upper_def (p : Pager) :
    (write_lines p).1.upper_mark =
      if p.upper_mark + min (p.rows - 1) (num_lines p) > num_lines p then
        if num_lines p < p.rows then 0 else num_lines p - (p.rows - 1)
      else p.upper_mark := rfl

lemma write_lines_full (p : Pager)
    (hln : p.line_numbers = .Disabled ∨ p.line_numbers = .AlwaysOff)
    (h : num_lines p ≤ p.rows - 1) :
    (write_lines p).2 = get_flattened_lines p := by
  have hupper :
      (if p.upper_mark + min (p.rows - 1) (num_lines p) > num_lines p then
        if num_lines p < p.rows then 0 else num_lines p - (p.rows - 1)
      else p.upper_mark) = 0 := by
    split_ifs <;> omega
  have hmin : min (p.rows - 1) (num_lines p) = num_lines p := by omega
  have hlen : num_lines p = (get_flattened_lines p).length := rfl
  rcases hln with h1 | h1 <;>
  · simp only [write_lines, h1]
    rw [hupper, hmin, List.drop_zero, hlen, List.take_length]

/-- C4 counterexample: a state holding a message whose changed flag is
`false`.  `draw` (src/utils/mod.rs:39-43) never consults the flag, so the
reserved row receives the message text, not the prompt as the claim
requires. -/
theorem minus_draw_message_flag_cex :
    pagerOfC4.message.2 = false ∧
    (draw pagerOfC4).2.promptRow = some (some (str "msg")) ∧
    pagerOfC4.prompt.head? = some (str "minus") ∧
    some (str "msg") ≠ pagerOfC4.prompt.head? := by
  decide

/-- C4 amended: on the interactive path, the reserved last row written by
`draw` is the first row of the message overlay whenever a message is
present — regardless of its changed-since-last-render flag — and the
first row of the prompt otherwise. -/
theorem minus_draw_message_overlay (p : Pager)
    (h : ¬(p.run_no_overflow ∧ num_lines p ≤ p.rows)) :
    (∀ m, p.message.1 = some m → (draw p).2.promptRow = some m.head?) ∧
    (p.message.1 = none → (draw p).2.promptRow = some p.prompt.head?) := by
  constructor
  · intro m hm
    simp [draw, h, hm]
  · intro hm
    simp [draw, h, hm]

/-- Witness for the amended C4 at a concrete state whose message flag is
`false`: the message row is still the one written. -/
theorem minus_draw_message_overlay_witness :
    (draw pagerOfC4).2.promptRow = some (([str "msg"] : List Str).head?) :=
  (minus_draw_message_overlay pagerOfC4 (by decide)).1 [str "msg"] (by decide)

/-- C6 counterexample.  First state: no-overflow enabled and
`num_lines = rows` exactly — the one-shot path is taken but `write_lines`
emits only `rows - 1` rows, dropping the last stored row.  Second state:
no-overflow with line numbers enabled — the single row is emitted in
annotated form, not verbatim.  Both contradict "draw emits every stored
row exactly once". -/
theorem minus_no_overflow_cex :
    pagerOfC6.run_no_overflow = true ∧
    num_lines pagerOfC6 ≤ pagerOfC6.rows ∧
    (draw pagerOfC6).2.body = [str "a"] ∧
    (draw pagerOfC6).2.body ≠ get_flattened_lines pagerOfC6 ∧
    num_lines pagerOfC6b ≤ pagerOfC6b.rows - 1 ∧
    (draw pagerOfC6b).2.body = [str " 1. a"] ∧
    (draw pagerOfC6b).2.body ≠ get_flattened_lines pagerOfC6b := by
  decide

/-- C6 amended: when no-overflow mode is enabled and the stored rows fit
within the terminal height, `draw` takes the one-shot path — no screen
clear, no prompt row, no interactive paging; it emits every stored row
exactly once (the flattened rows, in order) provided line numbers are off
and the rows moreover fit within the `rows - 1` visible rows.  When
`num_lines` equals the full terminal height the last row is dropped, and
with line numbers on the rows are emitted annotated. -/
theorem minus_no_overflow_oneshot (p : Pager) (h1 : p.run_no_overflow = true)
    (h2 : num_lines p ≤ p.rows) :
    (draw p).2.cleared = false ∧ (draw p).2.promptRow = none ∧
    ((p.line_numbers = .Disabled ∨ p.line_numbers = .AlwaysOff) →
      num_lines p ≤ p.rows - 1 → (draw p).2.body = get_flattened_lines p) := by
  have hc : p.run_no_overflow ∧ num_lines p ≤ p.rows := ⟨h1, h2⟩
  have hd : (draw p).2 = ⟨false, (write_lines p).2, none⟩ := by
    simp [draw, hc]
  rw [hd]
  exact ⟨rfl, rfl, fun hln hfit => write_lines_full p hln hfit⟩

/-- Witness for the amended C6: a no-overflow state whose single row fits
strictly within the visible rows is dumped verbatim, unpaged. -/
theorem minus_no_overflow_oneshot_witness :
    (draw pagerNoOv).2.cleared = false ∧ (draw pagerNoOv).2.promptRow = none ∧
    (draw pagerNoOv).2.body = get_flattened_lines pagerNoOv :=
  ⟨(minus_no_overflow_oneshot pagerNoOv (by decide) (by decide)).1,
   (minus_no_overflow_oneshot pagerNoOv (by decide) (by decide)).2.1,
   (minus_no_overflow_oneshot pagerNoOv (by decide) (by decide)).2.2
     (Or.inl rfl) (by decide)⟩

lemma annotAux_mem (len cols : Nat) (lines : List (List Str)) :
    ∀ (k : Nat) (row : Str),
      row ∈ annotAux len cols lines k ↔
      ∃ i, i < lines.length ∧ ∃ r, r ∈ rewrap (lines.getD i []) (cols - (len + 3)) ∧
        row = fmtNumbers (k + i + 1) len ++ r := by
  induction lines with
  | nil =>
    intro k row
    simp [annotAux]
  | cons l rest ih =>
    intro k row
    simp only [annotAux, List.mem_append, List.mem_map, ih]
    constructor
    · rintro (⟨r, hr, rfl⟩ | ⟨i, hi, r, hr, rfl⟩)
      · exact ⟨0, by simp, r, by simpa using hr, by simp⟩
      · refine ⟨i + 1, by simpa using hi, r, by simpa using hr, ?_⟩
        have hnum : k + (i + 1) + 1 = k + 1 + i + 1 := by omega
        rw [hnum]
    · rintro ⟨i, hi, r, hr, rfl⟩
      cases i with
      | zero => exact Or.inl ⟨r, by simpa using hr, by simp⟩
      | succ j =>
        refine Or.inr ⟨j, by simpa using hi, r, by simpa using hr, ?_⟩
        have hnum : k + (j + 1) + 1 = k + 1 + j + 1 := by omega
        rw [hnum]

/-- C5 counterexample.  `annotate_line_numbers` inserts the number prefix
into every row of a wrapped logical line (the inner loop of
src/utils/mod.rs:196-224 runs over all rows), so the continuation row of
the single logical line `"aaa bbb"` (wrapped at `8 - (1+3) = 4`) comes
out as `" 1. bbb"`, not the unnumbered margin-padded `"    bbb"` the
claim requires.  The prefix is one space, the right-aligned number, a dot
and one space — not a separator and two spaces.  And `write_lines`
computes the alignment width from the flattened row count, not from the
largest logical line number: one logical line stored as ten rows is
numbered `"  1. "` at width 2 although the largest line number is 1. -/
theorem minus_line_numbers_cex :
    annotate_line_numbers [[str "aaa bbb"]] 1 8 = [str " 1. aaa", str " 1. bbb"] ∧
    str " 1. bbb" ≠ str "    bbb" ∧
    (write_lines pagerOfC5).2 = [str "  1. x x x x x x x x x x"] := by
  decide

/-- C5 amended: every row of `annotate_line_numbers lines len cols` — the
first and all continuation rows of a logical line alike — is some row `r`
of logical line `i` rewrapped at `cols - (len + 3)`, prefixed by the
formatted number of line `i + 1`: one space, the number right-aligned in
width `len`, a dot and one space (`write_lines` passes `len` = decimal
width of the flattened row count); and every such prefixed row occurs in
the output. -/
theorem minus_line_numbers_every_row (lines : List (List Str)) (len cols : Nat)
    (row : Str) :
    row ∈ annotate_line_numbers lines len cols ↔
    ∃ i, i < lines.length ∧ ∃ r, r ∈ rewrap (lines.getD i []) (cols - (len + 3)) ∧
      row = fmtNumbers (i + 1) len ++ r := by
  have h := annotAux_mem len cols lines 0 row
  simpa [annotate_line_numbers] using h

/-- Witness for the amended C5: the continuation row `" 1. bbb"` is in the
annotated output because `"bbb"` is a rewrapped row of logical line 0. -/
theorem minus_line_numbers_every_row_witness :
    str " 1. bbb" ∈ annotate_line_numbers [[str "aaa bbb"]] 1 8 :=
  (minus_line_numbers_every_row [[str "aaa bbb"]] 1 8 (str " 1. bbb")).mpr
    ⟨0, by decide, str "bbb", by decide, by decide⟩

/-- C10: `draw` writes only the first wrapped row of the effective prompt.
`set_prompt` rejects only embedded line separators, so an over-wide text
is accepted and wrapped into several rows, of which the interactive path
of `draw` (src/utils/mod.rs:51, `prompt.first().unwrap()`) writes exactly
the first — every later row is silently omitted from the display. -/
theorem minus_prompt_truncation (p : Pager) (t : Str) (p2 : Pager)
    (hmsg : p.message.1 = none)
    (hok : set_prompt p t = .ok p2)
    (hmode : ¬(p2.run_no_overflow ∧ num_lines p2 ≤ p2.rows)) :
    (draw p2).2.promptRow = some (wrap_str t p.cols).head? := by
  unfold set_prompt at hok
  by_cases hct : t.contains '\n' = true
  · rw [if_pos hct] at hok
    exact absurd hok (by simp)
  · rw [if_neg hct] at hok
    have hp2 : { p with prompt := wrap_str t p.cols } = p2 := by
      injection hok
    subst hp2
    simp [draw, hmode, hmsg]

/-- Witness for C10: at 3 columns the separator-free prompt `"aa bb"`
wraps to the two rows `["aa", "bb"]`, yet `draw` writes only `"aa"`. -/
theorem minus_prompt_truncation_witness :
    (wrap_str (str "aa bb") 3).length = 2 ∧
    (draw pagerOfC10).2.promptRow = some (some (str "aa")) := by
  refine ⟨by decide, ?_⟩
  have h := minus_prompt_truncation (Pager.new 10 3) (str "aa bb") pagerOfC10
    (by decide) (by rfl) (by decide)
  rw [h]
  decide

lemma spacesN_succ (g : Nat) : spacesN (g + 1) = spacesN g ++ [' '] := by
  simp [spacesN, List.replicate_succ']

lemma renderTokens_cons (w : Str) (g : Nat) (ts : List (Str × Nat)) :
    renderTokens ((w, g) :: ts) = w ++ spacesN g ++ renderTokens ts := by
  simp [renderTokens]

lemma renderTokens_tokposAux (s : Str) :
    ∀ (w : Str) (g : Nat),
      renderTokens (tokposAux s w g) = w.reverse ++ spacesN g ++ s := by
  induction s with
  | nil =>
    intro w g
    simp [tokposAux, renderTokens]
  | cons c rest ih =>
    intro w g
    simp only [tokposAux]
    split
    · rename_i hc
      rw [ih w (g + 1), spacesN_succ, hc]
      simp
    · split
      · rename_i hg
        rw [ih (c :: w) 0, hg]
        simp [spacesN]
      · rw [renderTokens_cons, ih [c] 0]
        simp [spacesN]

lemma renderTokens_tokenize (s : Str) : renderTokens (tokenize s) = s := by
  simpa [tokenize, spacesN] using renderTokens_tokposAux s [] 0

lemma breakTok_singleton (cols : Nat) (p : Str × Nat) (h : p.1.length ≤ cols) :
    breakTok cols p = [p] := by
  unfold breakTok
  rw [if_pos (le_trans h (Nat.le_max_left _ _))]

lemma breakTokens_id (cols : Nat) :
    ∀ ts, wordsFit cols ts = true → breakTokens cols ts = ts := by
  intro ts
  induction ts with
  | nil => intro _; simp [breakTokens]
  | cons t rest ih =>
    intro h
    simp only [wordsFit, List.all_cons, Bool.and_eq_true, decide_eq_true_eq] at h
    simp only [breakTokens, List.flatMap_cons]
    rw [breakTok_singleton cols t h.1]
    have := ih h.2
    simp only [breakTokens] at this
    rw [this]
    simp

lemma joinSpace_cons (a : Str) (l : List Str) (h : l ≠ []) :
    joinSpace (a :: l) = a ++ ' ' :: joinSpace l := by
  match l with
  | [] => exact absurd rfl h
  | b :: m =>
    simp [joinSpace, List.intersperse, str]

lemma joinSpace_fillLines (cols : Nat) :
    ∀ (ts : List (Str × Nat)) (cur : Str), chainOK ts = true →
      joinSpace (fillLines cols ts (some cur) (if ts.isEmpty then 0 else 1)) =
        cur ++ renderTail ts := by
  intro ts
  induction ts with
  | nil =>
    intro cur _
    simp [fillLines, joinSpace, renderTail, List.intersperse]
  | cons t rest ih =>
    obtain ⟨w, g⟩ := t
    intro cur hchain
    simp only [chainOK, Bool.and_eq_true, beq_iff_eq] at hchain
    obtain ⟨⟨-, hg⟩, hrest⟩ := hchain
    have hpg : (if ((w, g) :: rest).isEmpty = true then (0 : Nat) else 1) = 1 := by
      simp
    rw [hpg]
    rw [show fillLines cols ((w, g) :: rest) (some cur) 1 =
        if (cur ++ spacesN 1 ++ w).length ≤ cols then
          fillLines cols rest (some (cur ++ spacesN 1 ++ w)) g
        else cur :: fillLines cols rest (some w) g from rfl]
    rw [hg]
    split
    · rw [ih _ hrest]
      simp [renderTail, spacesN]
    · rw [joinSpace_cons _ _ (fillLines_some_ne_nil cols rest w _)]
      rw [ih _ hrest]
      simp [renderTail]

lemma renderTokens_chain :
    ∀ (rest : List (Str × Nat)) (w : Str) (g : Nat),
      chainOK ((w, g) :: rest) = true →
      renderTokens ((w, g) :: rest) = w ++ renderTail rest := by
  intro rest
  induction rest with
  | nil =>
    intro w g h
    simp only [chainOK, List.isEmpty_nil, if_true, Bool.and_eq_true, beq_iff_eq] at h
    rw [renderTokens_cons, h.1.2]
    simp [renderTokens, renderTail, spacesN]
  | cons r rs ih =>
    obtain ⟨rw', rg⟩ := r
    intro w g h
    simp only [chainOK, List.isEmpty_cons, if_false, Bool.and_eq_true, beq_iff_eq] at h
    obtain ⟨⟨-, hg⟩, htail⟩ := h
    have htail' : chainOK ((rw', rg) :: rs) = true := by
      simp only [chainOK, Bool.and_eq_true, beq_iff_eq]
      exact htail
    rw [renderTokens_cons, hg, ih rw' rg htail']
    simp [renderTail, spacesN]

lemma joinSpace_wrap_str (s : Str) (cols : Nat)
    (h1 : chainOK (tokenize s) = true) (h2 : wordsFit cols (tokenize s) = true) :
    joinSpace (wrap_str s cols) = s := by
  obtain ⟨t, rest, ht⟩ := List.exists_cons_of_ne_nil (tokenize_ne_nil s)
  obtain ⟨w, g⟩ := t
  have hw : wrap_str s cols = fillLines cols rest (some w) g := by
    unfold wrap_str
    rw [breakTokens_id cols _ h2, ht]
    rfl
  have hchain : chainOK ((w, g) :: rest) = true := ht ▸ h1
  have hparts : (w ≠ []) ∧ g = (if rest.isEmpty then 0 else 1) ∧ chainOK rest = true := by
    simpa [chainOK, Bool.and_eq_true, beq_iff_eq, and_assoc] using hchain
  rw [hw, hparts.2.1, joinSpace_fillLines cols rest w hparts.2.2]
  rw [← renderTokens_chain rest w g hchain, ← ht, renderTokens_tokenize]

/-- C7 counterexample: the rows produced by wrapping `"aa  bb"` (two
spaces) at 5 columns are `["aa", "bb"]` — the text is 6 columns wide, and
the break strips the inter-word whitespace — but rewrapping rejoins them
as `"aa bb"` (5 columns), which fits on a single row.  Rewrap at the same
`cols` is therefore not idempotent and loses a character (a space). -/
theorem minus_rewrap_idem_cex :
    wrap_str (str "aa  bb") 5 = [str "aa", str "bb"] ∧
    rewrap (wrap_str (str "aa  bb") 5) 5 = [str "aa bb"] ∧
    rewrap (wrap_str (str "aa  bb") 5) 5 ≠ wrap_str (str "aa  bb") 5 := by
  decide

/-- C7 amended: rewrapping at the same `cols` is idempotent — and loses or
duplicates no characters, since rejoining the rows with single spaces
reproduces the input exactly — for texts made of nonempty words separated
by single spaces with no leading or trailing whitespace (`chainOK`), each
word fitting within `cols` (`wordsFit`). -/
theorem minus_rewrap_idempotent (s : Str) (cols : Nat)
    (h1 : chainOK (tokenize s) = true) (h2 : wordsFit cols (tokenize s) = true) :
    rewrap (wrap_str s cols) cols = wrap_str s cols := by
  unfold rewrap
  rw [joinSpace_wrap_str s cols h1 h2]

/-- Witness for the amended C7 at `"aa bb"` and 5 columns. -/
theorem minus_rewrap_idempotent_witness :
    chainOK (tokenize (str "aa bb")) = true ∧
    wordsFit 5 (tokenize (str "aa bb")) = true ∧
    rewrap (wrap_str (str "aa bb") 5) 5 = wrap_str (str "aa bb") 5 :=
  ⟨by decide, by decide,
   minus_rewrap_idempotent (str "aa bb") 5 (by decide) (by decide)⟩
